import Mathlib

/-!
Verification of the Photo-Arranger core (src/src/core) against its
natural-language specification.

Shallow embedding conventions:
* A raster buffer (`np.ndarray`, height × width × 3, `uint8`, BGR order) is an
  `Image`: explicit dimensions plus a total pixel function; channel values are
  `ℕ` with an explicit `≤ 255` hypothesis where a claim needs 8-bit bounds.
* `float`/`float32` arithmetic is modelled exactly over `ℚ`.  All concrete
  inputs used in counterexamples and witnesses are chosen so that the float
  computation is exact, hence agrees with `ℚ`.
* `np.clip(v, 0, 255)` is `clip255`; `astype(np.uint8)` on a non-negative
  float truncates toward zero and wraps modulo 256, which is `qToU8`;
  Python `int(...)` truncates toward zero, which is `truncQ`.
* External OpenCV routines whose output the claims treat as a black box
  (Canny edge detection / contour extraction, `approxPolyDP`, `cv2.resize`
  interpolation, the Lab colour conversions, `np.linalg.lstsq`) are function
  parameters (oracles); everything the claims quantify over is embedded from
  the Python source.
* `np.std` returns a square root; every comparison `std < 100` in the source
  is embedded as the equivalent exact comparison `variance < 100^2`, and the
  `src_std > 0` guard of `color_transfer` keeps the square root as an oracle
  `sq` with the single fact `sq 0 = 0` that the claim needs.
-/

/-- A pixel in BGR channel order: (blue, green, red), each an 8-bit value. -/
abbrev Pixel := ℕ × ℕ × ℕ

/-- A raster buffer: height × width and a (total) pixel lookup function.
Only indices `i < height`, `j < width` correspond to real array cells. -/
structure Image where
  height : ℕ
  width : ℕ
  pix : ℕ → ℕ → Pixel

/-- Embeds `np.clip(v, 0, 255)`. -/
def clip255 (q : ℚ) : ℚ := max 0 (min q 255)

/-- Python `int(...)` on a float: truncation toward zero. -/
def truncQ (q : ℚ) : ℤ := if q < 0 then ⌈q⌉ else ⌊q⌋

/-- Embeds `astype(np.uint8)` on a non-negative float value: truncate toward zero,
then wrap modulo 256 (all call sites below first clip into [0, 255], where
this is just truncation). -/
def qToU8 (q : ℚ) : ℕ := (⌊q⌋).toNat % 256

/-- The adjustment dictionary passed to `ImageProcessor.apply_adjustments`. -/
structure AdjustmentParams where
  temperature : ℤ
  tint : ℤ
  brightness : ℤ

/-- Embeds `ImageProcessor.adjust_temperature`: `adjustment = value * 0.5`; blue
channel gets `- adjustment`, red channel `+ adjustment`, both clipped; the
whole buffer round-trips through float32 and back to uint8. -/
def adjustTemperature (img : Image) (value : ℤ) : Image :=
  ⟨img.height, img.width, fun i j =>
    let p := img.pix i j
    (qToU8 (clip255 ((p.1 : ℚ) - (value : ℚ) * 0.5)),
     qToU8 ((p.2.1 : ℚ)),
     qToU8 (clip255 ((p.2.2 : ℚ) + (value : ℚ) * 0.5)))⟩

/-- Embeds `ImageProcessor.adjust_tint`: `adjustment = value * 0.5` subtracted from
the green channel, clipped. -/
def adjustTint (img : Image) (value : ℤ) : Image :=
  ⟨img.height, img.width, fun i j =>
    let p := img.pix i j
    (qToU8 ((p.1 : ℚ)),
     qToU8 (clip255 ((p.2.1 : ℚ) - (value : ℚ) * 0.5)),
     qToU8 ((p.2.2 : ℚ)))⟩

/-- Embeds `ImageProcessor.adjust_contrast`: `factor = 1 + value / 100`;
`(v - 128) * factor + 128` on every channel, clipped. -/
def adjustContrast (img : Image) (value : ℤ) : Image :=
  ⟨img.height, img.width, fun i j =>
    let p := img.pix i j
    let factor : ℚ := 1 + (value : ℚ) / 100
    (qToU8 (clip255 (((p.1 : ℚ) - 128) * factor + 128)),
     qToU8 (clip255 (((p.2.1 : ℚ) - 128) * factor + 128)),
     qToU8 (clip255 (((p.2.2 : ℚ) - 128) * factor + 128)))⟩

/-- Embeds `ImageProcessor.apply_adjustments`: copy the input, then apply
temperature, tint and brightness in that order, skipping any step whose
value is 0.  `adjust_brightness` round-trips through OpenCV's HSV
conversion, so it is passed as an oracle `adjustBrightnessFn`; the neutral
claims never invoke it. -/
def applyAdjustments (adjustBrightnessFn : Image → ℤ → Image)
    (img : Image) (values : AdjustmentParams) : Image :=
  let r1 := if values.temperature ≠ 0 then adjustTemperature img values.temperature else img
  let r2 := if values.tint ≠ 0 then adjustTint r1 values.tint else r1
  if values.brightness ≠ 0 then adjustBrightnessFn r2 values.brightness else r2

/-- Embeds `ImageProcessor.crop_image`: clamp `x` to `[0, w-1]`, `y` to `[0, h-1]`,
`width` to `[1, w-x]`, `height` to `[1, h-y]`, then take
`image[y:y+height, x:x+width].copy()`.  The numpy slice clips to the actual
array extent, which is what the `min _ h - _` in the dimensions models
(it only differs from the clamped width/height on an empty input buffer). -/
def cropImage (img : Image) (x y width height : ℤ) : Image :=
  let w : ℤ := img.width
  let h : ℤ := img.height
  let x2 := max 0 (min x (w - 1))
  let y2 := max 0 (min y (h - 1))
  let width2 := max 1 (min width (w - x2))
  let height2 := max 1 (min height (h - y2))
  ⟨(min (y2 + height2) h - y2).toNat,
   (min (x2 + width2) w - x2).toNat,
   fun i j => img.pix (y2.toNat + i) (x2.toNat + j)⟩

/-- The argument record of `ImageProcessor.resize_image`. -/
structure ResizeSpec where
  width : Option ℤ
  height : Option ℤ
  scalePercent : Option ℚ
  maintainAspect : Bool

/-- Outcome of `resize_image`'s target-dimension resolution: computed
target dimensions, the no-argument path returning an unmodified copy, or
a Python `ZeroDivisionError` raised by one of its divisions. -/
inductive ResizeDims where
  | dims (nw nh : ℤ)
  | copy
  | zeroDivErr

/-- The target-dimension resolution of `ImageProcessor.resize_image`.
Each division of the source whose divisor can be zero is guarded, in the
code's evaluation order, by an explicit `zeroDivErr` outcome: with both
`width` and `height` given and `maintain_aspect`, `aspect = w / h`
(line 224) raises when the buffer height is 0, `width / height`
(line 225) raises when the `height` argument is 0, and
`int(width / aspect)` (line 230) raises when `aspect` is 0, i.e. when the
buffer width is 0 (the buffer height being non-zero at that point);
`int(h * width / w)` (line 237) raises when the buffer width is 0 and
`int(w * height / h)` (line 241) raises when the buffer height is 0.
No other path divides by a non-constant. -/
def resizeDims (h w : ℕ) (s : ResizeSpec) : ResizeDims :=
  match s.scalePercent with
  | some sc => ResizeDims.dims (truncQ ((w : ℚ) * sc / 100)) (truncQ ((h : ℚ) * sc / 100))
  | none =>
    match s.width, s.height with
    | some wd, some ht =>
      if s.maintainAspect then
        if h = 0 then ResizeDims.zeroDivErr
        else if ht = 0 then ResizeDims.zeroDivErr
        else if (wd : ℚ) / (ht : ℚ) > (w : ℚ) / (h : ℚ) then
          ResizeDims.dims (truncQ ((ht : ℚ) * ((w : ℚ) / (h : ℚ)))) ht
        else if w = 0 then ResizeDims.zeroDivErr
        else ResizeDims.dims wd (truncQ ((wd : ℚ) / ((w : ℚ) / (h : ℚ))))
      else ResizeDims.dims wd ht
    | some wd, none =>
      if s.maintainAspect then
        (if w = 0 then ResizeDims.zeroDivErr
         else ResizeDims.dims wd (truncQ ((h : ℚ) * (wd : ℚ) / (w : ℚ))))
      else ResizeDims.dims wd (h : ℤ)
    | none, some ht =>
      if s.maintainAspect then
        (if h = 0 then ResizeDims.zeroDivErr
         else ResizeDims.dims (truncQ ((w : ℚ) * (ht : ℚ) / (h : ℚ))) ht)
      else ResizeDims.dims (w : ℤ) ht
    | none, none => ResizeDims.copy

/-- Embeds `ImageProcessor.resize_image`: resolve target dimensions, floor
them at 1 px, then call `cv2.resize` (an oracle `cvResize`; its last
argument is the `new < old` test selecting INTER_AREA over INTER_CUBIC).
The result is `none` when the dimension resolution raises
`ZeroDivisionError` (the function is fallible, so it returns an
`Option`). -/
def resizeImage (cvResize : Image → ℕ → ℕ → Bool → Image)
    (img : Image) (s : ResizeSpec) : Option Image :=
  match resizeDims img.height img.width s with
  | ResizeDims.zeroDivErr => none
  | ResizeDims.copy => some img
  | ResizeDims.dims nw nh =>
    let nw2 := (max 1 nw).toNat
    let nh2 := (max 1 nh).toNat
    some (cvResize img nw2 nh2 (decide (nw2 < img.width ∨ nh2 < img.height)))

/-- Embeds `ImageProcessor.cm_to_pixels`: `int(cm / 2.54 * dpi)`. -/
def cmToPixels (cm : ℚ) (dpi : ℤ) : ℤ := truncQ (cm / 2.54 * (dpi : ℚ))

/-- Embeds `ImageProcessor.pixels_to_cm`: `pixels / dpi * 2.54`. -/
def pixelsToCm (pixels : ℤ) (dpi : ℤ) : ℚ := (pixels : ℚ) / (dpi : ℚ) * 2.54

/-- Blue channel of a flattened buffer. -/
def channelB (l : List Pixel) : List ℕ := l.map (fun p => p.1)

/-- Green channel of a flattened buffer. -/
def channelG (l : List Pixel) : List ℕ := l.map (fun p => p.2.1)

/-- Red channel of a flattened buffer. -/
def channelR (l : List Pixel) : List ℕ := l.map (fun p => p.2.2)

/-- Embeds `np.histogram(xs, 256, [0,256])` at bin `v`: the number of occurrences
of the 8-bit value `v`. -/
def histN (xs : List ℕ) (v : ℕ) : ℕ := xs.countP (fun a => a = v)

/-- Cumulative histogram `hist.cumsum()` at index `i`. -/
def cdfN (xs : List ℕ) (i : ℕ) : ℕ := ∑ k ∈ Finset.range (i + 1), histN xs k

/-- Normalized CDF: `cdf / cdf[-1]`. -/
def ncdf (xs : List ℕ) (i : ℕ) : ℚ := (cdfN xs i : ℚ) / (cdfN xs 255 : ℚ)

/-- Embeds `np.argmin` over indices `0, …, n-1`: the first index attaining the
minimum (ties keep the earlier index, as numpy documents). -/
def npArgmin (f : ℕ → ℚ) (n : ℕ) : ℕ :=
  (List.range n).foldl (fun best j => if f j < f best then j else best) 0

/-- Embeds `np.argmax` over indices `0, …, n-1`: the first index attaining the
maximum. -/
def npArgmax (f : ℕ → ℚ) (n : ℕ) : ℕ :=
  (List.range n).foldl (fun best j => if f best < f j then j else best) 0

/-- The lookup table of `ColorMatcher._match_channel_histogram` at entry `i`:
`np.argmin(np.abs(ref_cdf - src_cdf[i]))`. -/
def lutHist (src ref : List ℕ) (i : ℕ) : ℕ :=
  npArgmin (fun j => |ncdf ref j - ncdf src i|) 256

/-- Embeds `ColorMatcher.match_histograms` on flattened buffers: build the per
channel lookup table and remap every pixel through it. -/
def matchHistograms (source reference : List Pixel) : List Pixel :=
  source.map (fun p =>
    (lutHist (channelB source) (channelB reference) p.1,
     lutHist (channelG source) (channelG reference) p.2.1,
     lutHist (channelR source) (channelR reference) p.2.2))

/-- Embeds `np.mean` of a list of rationals (0 on the empty list, matching `0/0`). -/
def qmean (l : List ℚ) : ℚ := l.sum / l.length

/-- Population variance, i.e. the square of `np.std`. -/
def qvar (l : List ℚ) : ℚ := ((l.map (fun v => (v - qmean l) ^ 2)).sum) / l.length

/-- First Lab channel of a flattened Lab buffer. -/
def lab0 (l : List (ℚ × ℚ × ℚ)) : List ℚ := l.map (fun p => p.1)

/-- Second Lab channel of a flattened Lab buffer. -/
def lab1 (l : List (ℚ × ℚ × ℚ)) : List ℚ := l.map (fun p => p.2.1)

/-- Third Lab channel of a flattened Lab buffer. -/
def lab2 (l : List (ℚ × ℚ × ℚ)) : List ℚ := l.map (fun p => p.2.2)

/-- The per-value channel remap of `ColorMatcher.color_transfer`:
`(v - src_mean) * (ref_std / src_std) + ref_mean` when `src_std > 0`, else
the constant `ref_mean`.  `sq` is the oracle for `np.std`'s square root
applied to the exact variance. -/
def transferVal (sq : ℚ → ℚ) (src ref : List ℚ) (v : ℚ) : ℚ :=
  if 0 < sq (qvar src) then
    (v - qmean src) * (sq (qvar ref) / sq (qvar src)) + qmean ref
  else qmean ref

/-- The Lab-space core of `ColorMatcher.color_transfer` (lines 104-127 of
color_matcher.py): per-channel statistical remap followed by the clip to
[0, 255]; the BGR↔Lab conversions on either side are the external OpenCV
calls. -/
def colorTransferLab (sq : ℚ → ℚ) (src ref : List (ℚ × ℚ × ℚ)) : List (ℚ × ℚ × ℚ) :=
  src.map (fun p =>
    (clip255 (transferVal sq (lab0 src) (lab0 ref) p.1),
     clip255 (transferVal sq (lab1 src) (lab1 ref) p.2.1),
     clip255 (transferVal sq (lab2 src) (lab2 ref) p.2.2)))

/-- Embeds `ChartRegion`: the four detected corner coordinates and the 24 patch
centre coordinates. -/
structure ChartRegion where
  corners : List (ℚ × ℚ)
  patches : List (ℚ × ℚ)

/-- The pixels of the numpy window `image[y1:y2, x1:x2]` (the bounds are
already clipped to the image by the caller). -/
def windowPixels (img : Image) (x1 y1 x2 y2 : ℤ) : List Pixel :=
  (List.range (y2 - y1).toNat).flatMap (fun r =>
    (List.range (x2 - x1).toNat).map (fun c => img.pix (y1.toNat + r) (x1.toNat + c)))

/-- Embeds `np.mean(patch, axis=(0,1))`: the per-channel mean colour of a pixel
list. -/
def meanColor (l : List Pixel) : ℚ × ℚ × ℚ :=
  ((l.map (fun p => (p.1 : ℚ))).sum / l.length,
   (l.map (fun p => (p.2.1 : ℚ))).sum / l.length,
   (l.map (fun p => (p.2.2 : ℚ))).sum / l.length)

/-- One loop iteration of `ChartDetector.extract_colors`: clip the
`(2*patch_size)²` window centred at `int(center)` to the image bounds, skip
it if empty, otherwise sample the mean colour. -/
def samplePatch (img : Image) (patchSize : ℤ) (center : ℚ × ℚ) : Option (ℚ × ℚ × ℚ) :=
  let cx := truncQ center.1
  let cy := truncQ center.2
  let x1 := max 0 (cx - patchSize)
  let y1 := max 0 (cy - patchSize)
  let x2 := min (img.width : ℤ) (cx + patchSize)
  let y2 := min (img.height : ℤ) (cy + patchSize)
  if x2 ≤ x1 ∨ y2 ≤ y1 then none
  else some (meanColor (windowPixels img x1 y1 x2 y2))

/-- Embeds `ChartDetector.MACBETH_PATCHES`. -/
def MACBETH_PATCHES : ℕ := 24

/-- Embeds `ChartDetector.extract_colors`: `None` if the chart has no patches,
otherwise sample every patch, and `None` if fewer than
`MACBETH_PATCHES // 2 = 12` patches produced a sample. -/
def extractColors (img : Image) (chart : ChartRegion) (patchSize : ℤ) :
    Option (List (ℚ × ℚ × ℚ)) :=
  if chart.patches = [] then none
  else
    let colors := chart.patches.filterMap (samplePatch img patchSize)
    if colors.length < MACBETH_PATCHES / 2 then none else some colors

/-- A 3×3 colour-transform matrix as three rows. -/
abbrev Mat3 := (ℚ × ℚ × ℚ) × (ℚ × ℚ × ℚ) × (ℚ × ℚ × ℚ)

/-- Embeds `ColorMatcher._apply_color_transform`: every pixel row-vector is
multiplied by the matrix, clipped to [0, 255] and cast back to uint8. -/
def applyColorTransform (img : Image) (t : Mat3) : Image :=
  ⟨img.height, img.width, fun i j =>
    let p := img.pix i j
    (qToU8 (clip255 ((p.1 : ℚ) * t.1.1 + (p.2.1 : ℚ) * t.2.1.1 + (p.2.2 : ℚ) * t.2.2.1)),
     qToU8 (clip255 ((p.1 : ℚ) * t.1.2.1 + (p.2.1 : ℚ) * t.2.1.2.1 + (p.2.2 : ℚ) * t.2.2.2.1)),
     qToU8 (clip255 ((p.1 : ℚ) * t.1.2.2 + (p.2.1 : ℚ) * t.2.1.2.2 + (p.2.2 : ℚ) * t.2.2.2.2)))⟩

/-- Embeds `ColorMatcher.match_with_chart`: detect the chart on both images
(`detect` is the detector, a black box for this claim), extract the patch
colours, and on success fit (`lstsq`, the `np.linalg.lstsq` oracle) and
apply the colour transform.  Total: every failure is the absence value. -/
def matchWithChart (detect : Image → Option ChartRegion)
    (lstsq : List (ℚ × ℚ × ℚ) → List (ℚ × ℚ × ℚ) → Mat3)
    (src ref : Image) : Option Image :=
  match detect src, detect ref with
  | some cs, some cr =>
    match extractColors src cs 10, extractColors ref cr 10 with
    | some sc, some rc => some (applyColorTransform src (lstsq sc rc))
    | _, _ => none
  | _, _ => none

/-- A contour / approximated polygon: integer pixel coordinates `(x, y)`. -/
abbrev Polygon := List (ℕ × ℕ)

/-- Twice the signed shoelace area of a closed polygon. -/
def shoelace (poly : Polygon) : ℤ :=
  (poly.zip (poly.drop 1 ++ poly.take 1)).foldl
    (fun acc pq => acc + ((pq.1.1 : ℤ) * (pq.2.2 : ℤ) - (pq.2.1 : ℤ) * (pq.1.2 : ℤ))) 0

/-- Embeds `cv2.contourArea`: the absolute shoelace area (exact for integer
coordinates). -/
def contourArea (poly : Polygon) : ℚ := ((shoelace poly).natAbs : ℚ) / 2

/-- Embeds `cv2.boundingRect`: `(x, y, w, h)` with `w = max_x - min_x + 1`,
`h = max_y - min_y + 1`. -/
def boundingRect (poly : Polygon) : ℕ × ℕ × ℕ × ℕ :=
  match poly with
  | [] => (0, 0, 0, 0)
  | p :: ps =>
    let minX := ps.foldl (fun a q => min a q.1) p.1
    let minY := ps.foldl (fun a q => min a q.2) p.2
    let maxX := ps.foldl (fun a q => max a q.1) p.1
    let maxY := ps.foldl (fun a q => max a q.2) p.2
    (minX, minY, maxX - minX + 1, maxY - minY + 1)

/-- The aspect test value of `ChartDetector._validate_chart`:
`w / h if h > 0 else 0` on the bounding rectangle. -/
def aspectOf (poly : Polygon) : ℚ :=
  let r := boundingRect poly
  if 0 < r.2.2.2 then (r.2.2.1 : ℚ) / (r.2.2.2 : ℚ) else 0

/-- The numpy slice `image[y:y+h, x:x+w]` as a flat pixel list (row-major);
the slice clips to the actual image extent. -/
def roiList (img : Image) (x y w h : ℕ) : List Pixel :=
  (List.range (min (y + h) img.height - y)).flatMap (fun r =>
    (List.range (min (x + w) img.width - x)).map (fun c => img.pix (y + r) (x + c)))

/-- The region-of-interest pixels of a candidate contour: its bounding
rectangle sliced out of the image. -/
def roiOf (img : Image) (poly : Polygon) : List Pixel :=
  let r := boundingRect poly
  roiList img r.1 r.2.1 r.2.2.1 r.2.2.2

/-- The V (value) component of OpenCV's 8-bit BGR→HSV conversion. -/
def hsvV (p : Pixel) : ℕ := max p.2.2 (max p.2.1 p.1)

/-- The minimum of the three channels, used by the HSV conversion. -/
def hsvMn (p : Pixel) : ℕ := min p.2.2 (min p.2.1 p.1)

/-- The S (saturation) component of OpenCV's 8-bit BGR→HSV conversion:
`255 * (V - min) / V` rounded, 0 when `V = 0`. -/
def hsvS (p : Pixel) : ℕ :=
  if hsvV p = 0 then 0
  else (round ((255 * ((hsvV p : ℚ) - (hsvMn p : ℚ))) / (hsvV p : ℚ))).toNat

/-- The hue in degrees of the BGR→HSV conversion, before the 8-bit
halving; 0 for achromatic pixels. -/
def hsvHdeg (p : Pixel) : ℚ :=
  let v := hsvV p
  let m := hsvMn p
  if v = m then 0
  else if v = p.2.2 then 60 * ((p.2.1 : ℚ) - (p.1 : ℚ)) / ((v : ℚ) - (m : ℚ))
  else if v = p.2.1 then 120 + 60 * ((p.1 : ℚ) - (p.2.2 : ℚ)) / ((v : ℚ) - (m : ℚ))
  else 240 + 60 * ((p.2.2 : ℚ) - (p.2.1 : ℚ)) / ((v : ℚ) - (m : ℚ))

/-- The H component of OpenCV's 8-bit BGR→HSV conversion: the degree hue
brought into [0, 360) and halved, rounded (the concrete pixels used below
avoid rounding ties, so the tie-breaking convention is immaterial). -/
def hsvH (p : Pixel) : ℕ :=
  (round ((if hsvHdeg p < 0 then hsvHdeg p + 360 else hsvHdeg p) / 2)).toNat

/-- Embeds `np.std(hist)²` for a histogram given as a bin-count function over
`bins` bins: the population variance of the bin counts. -/
def histVarOf (cnt : ℕ → ℕ) (bins : ℕ) : ℚ :=
  (∑ k ∈ Finset.range bins,
      ((cnt k : ℚ) - (∑ j ∈ Finset.range bins, (cnt j : ℚ)) / (bins : ℚ)) ^ 2) / (bins : ℚ)

/-- The variance of the 180-bin hue histogram (`cv2.calcHist` over channel
0 of the HSV region). -/
def hueVar (roi : List Pixel) : ℚ :=
  histVarOf (fun k => roi.countP (fun p => hsvH p = k)) 180

/-- The variance of the 256-bin saturation histogram. -/
def satVar (roi : List Pixel) : ℚ :=
  histVarOf (fun k => roi.countP (fun p => hsvS p = k)) 256

/-- Embeds `ChartDetector._validate_chart`: reject unless the bounding-box aspect
ratio lies strictly inside (1.2, 2.0) or (0.5, 0.85); reject an empty
region; reject when either histogram standard deviation is below 100
(embedded as variance below 100²). -/
def validateChart (img : Image) (contour : Polygon) : Bool :=
  let r := boundingRect contour
  let ar := aspectOf contour
  if ¬ ((1.2 : ℚ) < ar ∧ ar < 2.0 ∨ (0.5 : ℚ) < ar ∧ ar < 0.85) then false
  else
    let roi := roiList img r.1 r.2.1 r.2.2.1 r.2.2.2
    if roi.length = 0 then false
    else if hueVar roi < 10000 ∨ satVar roi < 10000 then false
    else true

/-- Indexing helper for the numpy argmin/argmax over the 4 corner rows. -/
def ptAt (pts : Polygon) (i : ℕ) : ℕ × ℕ := pts.getD i (0, 0)

/-- Embeds `ChartDetector._order_points`: top-left minimizes x+y, bottom-right
maximizes x+y, top-right minimizes y-x, bottom-left maximizes y-x
(`np.diff` along axis 1 is y - x); result order TL, TR, BR, BL. -/
def orderPoints (pts : Polygon) : List (ℚ × ℚ) :=
  let n := pts.length
  let s := fun i => ((ptAt pts i).1 : ℚ) + ((ptAt pts i).2 : ℚ)
  let d := fun i => ((ptAt pts i).2 : ℚ) - ((ptAt pts i).1 : ℚ)
  let q := fun (p : ℕ × ℕ) => ((p.1 : ℚ), (p.2 : ℚ))
  [q (ptAt pts (npArgmin s n)), q (ptAt pts (npArgmin d n)),
   q (ptAt pts (npArgmax s n)), q (ptAt pts (npArgmax d n))]

/-- Embeds `ChartDetector._bilinear_interpolate` over the ordered corners
[TL, TR, BR, BL]. -/
def bilinearInterp (corners : List (ℚ × ℚ)) (rx ry : ℚ) : ℚ × ℚ :=
  let tl := corners.getD 0 (0, 0)
  let tr := corners.getD 1 (0, 0)
  let br := corners.getD 2 (0, 0)
  let bl := corners.getD 3 (0, 0)
  (tl.1 + rx * (tr.1 - tl.1) + ry * ((bl.1 + rx * (br.1 - bl.1)) - (tl.1 + rx * (tr.1 - tl.1))),
   tl.2 + rx * (tr.2 - tl.2) + ry * ((bl.2 + rx * (br.2 - bl.2)) - (tl.2 + rx * (tr.2 - tl.2))))

/-- Embeds `ChartDetector._calculate_patch_centers`: a 4×6 grid of bilinearly
interpolated patch centres in row-major order. -/
def patchCenters (corners : Polygon) : List (ℚ × ℚ) :=
  let ordered := orderPoints corners
  (List.range 4).flatMap (fun row =>
    (List.range 6).map (fun col =>
      bilinearInterp ordered (((col : ℚ) + 0.5) / 6) (((row : ℚ) + 0.5) / 4)))

/-- The `ChartRegion` built by `detect_chart` on acceptance: the raw
(approximated) corner array and the computed patch centres. -/
def mkChartRegion (a : Polygon) : ChartRegion :=
  ⟨a.map (fun p => ((p.1 : ℚ), (p.2 : ℚ))), patchCenters a⟩

/-- The candidate loop of `ChartDetector.detect_chart` over the
area-sorted contour list: approximate (`approx` is the `approxPolyDP`
oracle), require 4 vertices and area > 10000, validate, and return the
first accepted region. -/
def detectLoop (img : Image) (approx : Polygon → Polygon) :
    List Polygon → Option ChartRegion
  | [] => none
  | ct :: rest =>
    let a := approx ct
    if a.length = 4 ∧ 10000 < contourArea a then
      if validateChart img a then some (mkChartRegion a)
      else detectLoop img approx rest
    else detectLoop img approx rest

/-- Embeds `ChartDetector.detect_chart` from the external contour list: Python's
`sorted(contours, key=cv2.contourArea, reverse=True)` is a stable
descending sort, which `List.mergeSort` with this comparison reproduces. -/
def detectChart (img : Image) (contours : List Polygon)
    (approx : Polygon → Polygon) : Option ChartRegion :=
  detectLoop img approx
    (contours.mergeSort (fun c1 c2 => decide (contourArea c2 ≤ contourArea c1)))

/-- Modelled from the spec: the acceptance condition of the (amended) C4
claim sentence for a candidate polygon — 4 vertices, enclosed area
> 10000 px², bounding-box aspect ratio strictly inside (1.2, 2.0) or
(0.5, 0.85), and hue and saturation histogram standard deviations ≥ 100
(stated on the exact variances). -/
def specAccept (img : Image) (a : Polygon) : Prop :=
  a.length = 4 ∧ 10000 < contourArea a ∧
  ((1.2 : ℚ) < aspectOf a ∧ aspectOf a < 2.0 ∨
   (0.5 : ℚ) < aspectOf a ∧ aspectOf a < 0.85) ∧
  10000 ≤ hueVar (roiOf img a) ∧ 10000 ≤ satVar (roiOf img a)

instance specAcceptDec (img : Image) (a : Polygon) : Decidable (specAccept img a) := by
  unfold specAccept; exact inferInstance

/-- Modelled from the spec: the acceptance condition exactly as claim C4
states it, with the closed aspect-ratio intervals [1.2, 2.0] and
[0.5, 0.85]. -/
def closedSpecAccept (img : Image) (a : Polygon) : Prop :=
  a.length = 4 ∧ 10000 < contourArea a ∧
  ((1.2 : ℚ) ≤ aspectOf a ∧ aspectOf a ≤ 2.0 ∨
   (0.5 : ℚ) ≤ aspectOf a ∧ aspectOf a ≤ 0.85) ∧
  10000 ≤ hueVar (roiOf img a) ∧ 10000 ≤ satVar (roiOf img a)

instance closedSpecAcceptDec (img : Image) (a : Polygon) :
    Decidable (closedSpecAccept img a) := by
  unfold closedSpecAccept; exact inferInstance

/-- Whether the clipped sampling window of a patch centre is non-empty
(the skip test of `extract_colors`, as a predicate on the centre). -/
def windowNonempty (img : Image) (patchSize : ℤ) (center : ℚ × ℚ) : Bool :=
  let cx := truncQ center.1
  let cy := truncQ center.2
  decide (¬ (min (img.width : ℤ) (cx + patchSize) ≤ max 0 (cx - patchSize) ∨
             min (img.height : ℤ) (cy + patchSize) ≤ max 0 (cy - patchSize)))

/-- The clamped sub-region contract of `crop_image` for a non-empty input
buffer, as claim C6 states it. -/
def cropSpec (img : Image) (x y w h : ℤ) : Prop :=
  (cropImage img x y w h).width = (max 1 (min w ((img.width : ℤ) - max 0 (min x ((img.width : ℤ) - 1))))).toNat ∧
  (cropImage img x y w h).height = (max 1 (min h ((img.height : ℤ) - max 0 (min y ((img.height : ℤ) - 1))))).toNat ∧
  1 ≤ (cropImage img x y w h).width ∧ (cropImage img x y w h).width ≤ img.width ∧
  1 ≤ (cropImage img x y w h).height ∧ (cropImage img x y w h).height ≤ img.height ∧
  ∀ i j, i < (cropImage img x y w h).height → j < (cropImage img x y w h).width →
    (cropImage img x y w h).pix i j =
      img.pix ((max 0 (min y ((img.height : ℤ) - 1))).toNat + i)
              ((max 0 (min x ((img.width : ℤ) - 1))).toNat + j) ∧
    (max 0 (min y ((img.height : ℤ) - 1))).toNat + i < img.height ∧
    (max 0 (min x ((img.width : ℤ) - 1))).toNat + j < img.width

/-- A 3×3 demonstration buffer used by witnesses (its pixel function is
8-bit bounded at every index). -/
def demoImg3 : Image := ⟨3, 3, fun i j => ((i + j) % 256, i % 256, j % 256)⟩

/-- The empty (0×0) buffer. -/
def emptyImg : Image := ⟨0, 0, fun _ _ => (0, 0, 0)⟩

/-- A `cv2.resize` oracle that returns a buffer of the requested
dimensions, used by witnesses. -/
def cvr0 : Image → ℕ → ℕ → Bool → Image :=
  fun _ nw nh _ => ⟨nh, nw, fun _ _ => (0, 0, 0)⟩

/-- Concrete buffer for the match-histograms witness. -/
def wHistBuf : List Pixel := [(0, 1, 2), (200, 100, 50), (200, 1, 2)]

/-- Concrete Lab buffers for the colour-transfer witness. -/
def wLabSrc : List (ℚ × ℚ × ℚ) := [(3, 4, 5)]

/-- Reference Lab buffer for the colour-transfer witness. -/
def wLabRef : List (ℚ × ℚ × ℚ) := [(10, 20, 30)]

/-- A 1×1 buffer for the extract-colors witness. -/
def oneImg : Image := ⟨1, 1, fun _ _ => (7, 8, 9)⟩

/-- A 24-patch chart whose patches all sample the 1×1 buffer. -/
def chart24 : ChartRegion := ⟨[], List.replicate 24 ((0 : ℚ), (0 : ℚ))⟩

/-- The 100×200 constant buffer of the detect-chart counterexample: its
hue and saturation histograms are single spikes of mass 20000, whose
standard deviations far exceed 100. -/
def cexImg : Image := ⟨100, 200, fun _ _ => (128, 128, 128)⟩

/-- A 4-vertex candidate whose bounding box is 200×100, so its aspect
ratio is exactly 2.0: inside the claim's closed interval [1.2, 2.0] but
outside the code's strict bound `aspect < 2.0`. -/
def cexQuad : Polygon := [(0, 0), (199, 0), (199, 99), (0, 99)]

/-! ### Helper lemmas -/

theorem clip255_of_bounds (q : ℚ) (h0 : 0 ≤ q) (h255 : q ≤ 255) : clip255 q = q := by
  unfold clip255
  rw [min_eq_left h255, max_eq_right h0]

theorem qToU8_natCast (n : ℕ) (h : n ≤ 255) : qToU8 ((n : ℚ)) = n := by
  unfold qToU8
  rw [Int.floor_natCast]
  simp only [Int.toNat_natCast]
  omega

theorem qToU8_clip_natCast (n : ℕ) (h : n ≤ 255) : qToU8 (clip255 (n : ℚ)) = n := by
  rw [clip255_of_bounds _ (by positivity) (by exact_mod_cast h), qToU8_natCast n h]

/-! ### C1 and C9: neutral adjustments -/

/-- C9: `adjust_temperature(img, 0)`, `adjust_tint(img, 0)` and
`adjust_contrast(img, 0)`, called directly, each return a buffer
byte-identical to an 8-bit input buffer: the float round-trip with a zero
adjustment and the clip are exact on values in [0, 255]. -/
theorem adjustments_zero_id (img : Image)
    (hb : ∀ i j, (img.pix i j).1 ≤ 255 ∧ (img.pix i j).2.1 ≤ 255 ∧ (img.pix i j).2.2 ≤ 255) :
    adjustTemperature img 0 = img ∧ adjustTint img 0 = img ∧ adjustContrast img 0 = img := by
  obtain ⟨H, W, f⟩ := img
  refine ⟨?_, ?_, ?_⟩
  · unfold adjustTemperature
    congr 1
    funext i j
    have hp := hb i j
    show (qToU8 (clip255 (((f i j).1 : ℚ) - ((0 : ℤ) : ℚ) * 0.5)),
          qToU8 (((f i j).2.1 : ℚ)),
          qToU8 (clip255 (((f i j).2.2 : ℚ) + ((0 : ℤ) : ℚ) * 0.5))) = f i j
    rw [Int.cast_zero, zero_mul, sub_zero, add_zero]
    exact Prod.ext (qToU8_clip_natCast _ hp.1)
      (Prod.ext (qToU8_natCast _ hp.2.1) (qToU8_clip_natCast _ hp.2.2))
  · unfold adjustTint
    congr 1
    funext i j
    have hp := hb i j
    show (qToU8 (((f i j).1 : ℚ)),
          qToU8 (clip255 (((f i j).2.1 : ℚ) - ((0 : ℤ) : ℚ) * 0.5)),
          qToU8 (((f i j).2.2 : ℚ))) = f i j
    rw [Int.cast_zero, zero_mul, sub_zero]
    exact Prod.ext (qToU8_natCast _ hp.1)
      (Prod.ext (qToU8_clip_natCast _ hp.2.1) (qToU8_natCast _ hp.2.2))
  · unfold adjustContrast
    congr 1
    funext i j
    have hp := hb i j
    show (qToU8 (clip255 ((((f i j).1 : ℚ) - 128) * (1 + ((0 : ℤ) : ℚ) / 100) + 128)),
          qToU8 (clip255 ((((f i j).2.1 : ℚ) - 128) * (1 + ((0 : ℤ) : ℚ) / 100) + 128)),
          qToU8 (clip255 ((((f i j).2.2 : ℚ) - 128) * (1 + ((0 : ℤ) : ℚ) / 100) + 128))) = f i j
    rw [Int.cast_zero, zero_div, add_zero]
    simp only [mul_one, sub_add_cancel]
    exact Prod.ext (qToU8_clip_natCast _ hp.1)
      (Prod.ext (qToU8_clip_natCast _ hp.2.1) (qToU8_clip_natCast _ hp.2.2))

/-- Witness for C9 at a concrete 3×3 buffer. -/
theorem adjustments_zero_id_witness :
    (∀ i j, (demoImg3.pix i j).1 ≤ 255 ∧ (demoImg3.pix i j).2.1 ≤ 255 ∧
      (demoImg3.pix i j).2.2 ≤ 255) ∧
    (adjustTemperature demoImg3 0 = demoImg3 ∧ adjustTint demoImg3 0 = demoImg3 ∧
      adjustContrast demoImg3 0 = demoImg3) :=
  ⟨fun i j => by show (i + j) % 256 ≤ 255 ∧ i % 256 ≤ 255 ∧ j % 256 ≤ 255; omega,
   adjustments_zero_id demoImg3
     (fun i j => by show (i + j) % 256 ≤ 255 ∧ i % 256 ≤ 255 ∧ j % 256 ≤ 255; omega)⟩

/-- C1: `apply_adjustments` with neutral parameters (temperature = 0,
tint = 0, brightness = 0) skips every step and returns a buffer identical
to the input, for every input buffer and every brightness sub-transform. -/
theorem apply_adjustments_neutral_id (abf : Image → ℤ → Image) (img : Image) :
    applyAdjustments abf img ⟨0, 0, 0⟩ = img := by
  unfold applyAdjustments
  simp

/-! ### C6 and C8: crop and resize -/

/-- C6: for every non-empty buffer and all integer arguments, `crop_image`
clamps `x` to [0, width-1], `y` to [0, height-1], `w` to [1, width-x],
`h` to [1, height-y], and returns exactly that sub-region, which lies
fully inside the original bounds (aliasing of the returned copy is not
observable in this functional model; the content contract is what is
verified). -/
theorem crop_image_clamps (img : Image) (x y w h : ℤ)
    (hH : 0 < img.height) (hW : 0 < img.width) : cropSpec img x y w h := by
  obtain ⟨H, W, f⟩ := img
  dsimp only [cropSpec, cropImage] at *
  refine ⟨by omega, by omega, by omega, by omega, by omega, by omega, ?_⟩
  intro i j hi hj
  exact ⟨rfl, by omega, by omega⟩

/-- Witness for C6: the spec instance `crop(img, -5, -5, 100000, 100000)`
on a 3×3 buffer. -/
theorem crop_image_clamps_witness :
    0 < demoImg3.height ∧ 0 < demoImg3.width ∧
      cropSpec demoImg3 (-5) (-5) 100000 100000 :=
  ⟨by decide, by decide,
   crop_image_clamps demoImg3 (-5) (-5) 100000 100000 (by decide) (by decide)⟩

theorem resize_dims_of_dims (cvr : Image → ℕ → ℕ → Bool → Image)
    (img : Image) (s : ResizeSpec) (nw nh : ℤ)
    (hd : resizeDims img.height img.width s = ResizeDims.dims nw nh) :
    resizeImage cvr img s =
      some (cvr img (max 1 nw).toNat (max 1 nh).toNat
        (decide ((max 1 nw).toNat < img.width ∨ (max 1 nh).toNat < img.height))) := by
  unfold resizeImage
  rw [hd]

theorem resizeDims_copy_iff (h w : ℕ) (s : ResizeSpec) :
    resizeDims h w s = ResizeDims.copy ↔
      s.scalePercent = none ∧ s.width = none ∧ s.height = none := by
  obtain ⟨sw, sh, sc, ma⟩ := s
  unfold resizeDims
  rcases sc with _ | v
  · rcases sw with _ | wd
    · rcases sh with _ | ht
      · simp
      · dsimp only
        split_ifs <;> simp
    · rcases sh with _ | ht
      · dsimp only
        split_ifs <;> simp
      · dsimp only
        split_ifs <;> simp
  · simp

/-- C8 (amended): `crop_image` and `resize_image` perform no fail-fast
validation and never produce a descriptive error identifying a parameter.
Crop never raises: it clamps its parameters and returns the clamped
sub-region, which is non-degenerate exactly when the input buffer is
non-empty (an empty input silently yields an empty, degenerate output).
Resize returns an unmodified copy when no parameter is given; whenever it
returns a buffer at all, that buffer's dimensions are floored at 1 px (a
zero-area target is silently normalized, never rejected); on a non-empty
buffer the scale path always succeeds; and on an empty input buffer the
aspect-preserving path raises an incidental `ZeroDivisionError` (the
`none` outcome) rather than a validation error. -/
theorem crop_resize_total_clamped (cvr : Image → ℕ → ℕ → Bool → Image)
    (hcv : ∀ i a b fl, (cvr i a b fl).width = a ∧ (cvr i a b fl).height = b) :
    (∀ img x y w h, 0 < img.height → 0 < img.width →
       1 ≤ (cropImage img x y w h).height ∧ (cropImage img x y w h).height ≤ img.height ∧
       1 ≤ (cropImage img x y w h).width ∧ (cropImage img x y w h).width ≤ img.width) ∧
    (∀ img x y w h, img.height = 0 → (cropImage img x y w h).height = 0) ∧
    (∀ img x y w h, img.width = 0 → (cropImage img x y w h).width = 0) ∧
    (∀ img s, s.scalePercent = none → s.width = none → s.height = none →
       resizeImage cvr img s = some img) ∧
    (∀ img s out, resizeImage cvr img s = some out →
       ¬ (s.scalePercent = none ∧ s.width = none ∧ s.height = none) →
       1 ≤ out.width ∧ 1 ≤ out.height) ∧
    (∀ img s sc, 0 < img.height → 0 < img.width → s.scalePercent = some sc →
       ∃ out, resizeImage cvr img s = some out ∧ 1 ≤ out.width ∧ 1 ≤ out.height) ∧
    (∀ img wd ht, img.height = 0 →
       resizeImage cvr img ⟨some wd, some ht, none, true⟩ = none) := by
  refine ⟨?_, ?_, ?_, ?_, ?_, ?_, ?_⟩
  · intro img x y w h h1 h2
    obtain ⟨H, W, f⟩ := img
    dsimp only [cropImage] at *
    refine ⟨by omega, by omega, by omega, by omega⟩
  · intro img x y w h h1
    obtain ⟨H, W, f⟩ := img
    dsimp only [cropImage] at *
    omega
  · intro img x y w h h1
    obtain ⟨H, W, f⟩ := img
    dsimp only [cropImage] at *
    omega
  · intro img s h1 h2 h3
    obtain ⟨sw, sh, sc, ma⟩ := s
    dsimp only at h1 h2 h3
    subst h1 h2 h3
    rfl
  · intro img s out hout hne
    cases hd : resizeDims img.height img.width s with
    | dims nw nh =>
      rw [resize_dims_of_dims cvr img s nw nh hd] at hout
      obtain ⟨hw2, hh2⟩ := hcv img (max 1 nw).toNat (max 1 nh).toNat
        (decide ((max 1 nw).toNat < img.width ∨ (max 1 nh).toNat < img.height))
      cases Option.some_inj.mp hout
      rw [hw2, hh2]
      omega
    | copy =>
      exact absurd ((resizeDims_copy_iff img.height img.width s).mp hd) hne
    | zeroDivErr =>
      unfold resizeImage at hout
      rw [hd] at hout
      exact absurd hout (by simp)
  · intro img s sc _ _ hsc
    have hd : resizeDims img.height img.width s =
        ResizeDims.dims (truncQ ((img.width : ℚ) * sc / 100))
          (truncQ ((img.height : ℚ) * sc / 100)) := by
      unfold resizeDims
      rw [hsc]
    refine ⟨_, resize_dims_of_dims cvr img s _ _ hd, ?_, ?_⟩
    · rw [(hcv img _ _ _).1]
      omega
    · rw [(hcv img _ _ _).2]
      omega
  · intro img wd ht h0
    have hd : resizeDims img.height img.width ⟨some wd, some ht, none, true⟩ =
        ResizeDims.zeroDivErr := by
      unfold resizeDims
      simp [h0]
    unfold resizeImage
    rw [hd]

/-- Witness for C8 (amended), with a dimension-respecting resize oracle. -/
theorem crop_resize_total_clamped_witness :
    (∀ i a b fl, (cvr0 i a b fl).width = a ∧ (cvr0 i a b fl).height = b) ∧
    ((∀ img x y w h, 0 < img.height → 0 < img.width →
       1 ≤ (cropImage img x y w h).height ∧ (cropImage img x y w h).height ≤ img.height ∧
       1 ≤ (cropImage img x y w h).width ∧ (cropImage img x y w h).width ≤ img.width) ∧
    (∀ img x y w h, img.height = 0 → (cropImage img x y w h).height = 0) ∧
    (∀ img x y w h, img.width = 0 → (cropImage img x y w h).width = 0) ∧
    (∀ img s, s.scalePercent = none → s.width = none → s.height = none →
       resizeImage cvr0 img s = some img) ∧
    (∀ img s out, resizeImage cvr0 img s = some out →
       ¬ (s.scalePercent = none ∧ s.width = none ∧ s.height = none) →
       1 ≤ out.width ∧ 1 ≤ out.height) ∧
    (∀ img s sc, 0 < img.height → 0 < img.width → s.scalePercent = some sc →
       ∃ out, resizeImage cvr0 img s = some out ∧ 1 ≤ out.width ∧ 1 ≤ out.height) ∧
    (∀ img wd ht, img.height = 0 →
       resizeImage cvr0 img ⟨some wd, some ht, none, true⟩ = none)) :=
  ⟨fun _ _ _ _ => ⟨rfl, rfl⟩, crop_resize_total_clamped cvr0 (fun _ _ _ _ => ⟨rfl, rfl⟩)⟩

/-- C8 counterexample: the claim says degenerate inputs must fail fast
with a descriptive error identifying the invalid parameter and a
degenerate buffer must never be returned silently; instead the code
silently returns an empty (0×0) buffer when cropping the empty buffer,
silently clamps a zero-area crop request and a zero-percent resize target
to 1×1, and the only failure it does produce on a degenerate input is an
incidental ZeroDivisionError (the `none` below, from `aspect = w / h` on
the empty buffer), not a descriptive validation error. -/
theorem crop_resize_no_failfast_cex :
    (cropImage emptyImg 0 0 5 5).height = 0 ∧ (cropImage emptyImg 0 0 5 5).width = 0 ∧
    (cropImage demoImg3 0 0 0 0).height = 1 ∧ (cropImage demoImg3 0 0 0 0).width = 1 ∧
    (resizeImage cvr0 demoImg3 ⟨none, none, some 0, true⟩).map (fun i => i.height) = some 1 ∧
    (resizeImage cvr0 demoImg3 ⟨none, none, some 0, true⟩).map (fun i => i.width) = some 1 ∧
    resizeImage cvr0 emptyImg ⟨some 5, some 5, none, true⟩ = none := by
  refine ⟨by decide, by decide, by decide, by decide, ?_, ?_, rfl⟩
  all_goals
    unfold resizeImage resizeDims demoImg3 cvr0
    norm_num [truncQ]

/-! ### C7: unit conversion -/

/-- C7 counterexample: `cm_to_pixels` truncates (Python `int()`), it does
not round: at cm = 0.635, dpi = 3 the exact value is 0.75 (exactly
representable in binary floating point along the whole computation), the
code returns 0, while the claimed `round` gives 1. -/
theorem cm_to_pixels_round_cex :
    cmToPixels 0.635 3 = 0 ∧ round ((0.635 : ℚ) / 2.54 * ((3 : ℤ) : ℚ)) = 1 := by
  constructor
  · unfold cmToPixels truncQ
    norm_num
  · rw [round_eq]
    norm_num

/-- C7 (amended): `cm_to_pixels(cm, dpi)` is the truncation toward zero of
`cm / 2.54 * dpi` (the floor, for non-negative arguments);
`pixels_to_cm(px, dpi)` is `px / dpi * 2.54`; and the round-trip instances
`cm_to_pixels(2.54, 300) = 300` and `pixels_to_cm(300, 300) = 2.54` hold. -/
theorem cm_to_pixels_trunc_spec (cm : ℚ) (dpi px : ℤ)
    (hcm : 0 ≤ cm) (hdpi : 0 ≤ dpi) :
    ((cmToPixels cm dpi : ℚ) ≤ cm / 2.54 * (dpi : ℚ) ∧
      cm / 2.54 * (dpi : ℚ) < (cmToPixels cm dpi : ℚ) + 1) ∧
    pixelsToCm px dpi = (px : ℚ) / (dpi : ℚ) * 2.54 ∧
    cmToPixels 2.54 300 = 300 ∧ pixelsToCm 300 300 = 2.54 := by
  have hq : 0 ≤ cm / 2.54 * (dpi : ℚ) :=
    mul_nonneg (div_nonneg hcm (by norm_num)) (by exact_mod_cast hdpi)
  refine ⟨?_, rfl, ?_, ?_⟩
  · rw [cmToPixels, truncQ, if_neg (not_lt.mpr hq)]
    exact ⟨Int.floor_le _, Int.lt_floor_add_one _⟩
  · unfold cmToPixels truncQ
    norm_num
  · unfold pixelsToCm
    norm_num

/-- Witness for C7 (amended) at cm = 1, dpi = 300, px = 300. -/
theorem cm_to_pixels_trunc_spec_witness :
    (0 ≤ (1 : ℚ)) ∧ (0 ≤ (300 : ℤ)) ∧
    (((cmToPixels 1 300 : ℚ) ≤ 1 / 2.54 * ((300 : ℤ) : ℚ) ∧
      1 / 2.54 * ((300 : ℤ) : ℚ) < (cmToPixels 1 300 : ℚ) + 1) ∧
    pixelsToCm 300 300 = ((300 : ℤ) : ℚ) / ((300 : ℤ) : ℚ) * 2.54 ∧
    cmToPixels 2.54 300 = 300 ∧ pixelsToCm 300 300 = 2.54) :=
  ⟨by norm_num, by norm_num,
   cm_to_pixels_trunc_spec 1 300 300 (by norm_num) (by norm_num)⟩

/-! ### C2: histogram matching identity -/

theorem argmin_foldl_mem (f : ℕ → ℚ) (l : List ℕ) (b : ℕ) :
    l.foldl (fun best j => if f j < f best then j else best) b ∈ b :: l := by
  induction l generalizing b with
  | nil => simp
  | cons a t ih =>
    simp only [List.foldl_cons]
    by_cases hfa : f a < f b
    · rw [if_pos hfa]
      rcases List.mem_cons.mp (ih a) with h1 | h1
      · rw [h1]
        exact List.mem_cons_of_mem _ (List.mem_cons_self a t)
      · exact List.mem_cons_of_mem _ (List.mem_cons_of_mem _ h1)
    · rw [if_neg hfa]
      rcases List.mem_cons.mp (ih b) with h1 | h1
      · rw [h1]
        exact List.mem_cons_self _ _
      · exact List.mem_cons_of_mem _ (List.mem_cons_of_mem _ h1)

theorem argmin_foldl_const (f : ℕ → ℚ) (l : List ℕ) (b : ℕ)
    (hb : ∀ j ∈ l, f b ≤ f j) :
    l.foldl (fun best j => if f j < f best then j else best) b = b := by
  induction l with
  | nil => rfl
  | cons a t ih =>
    simp only [List.foldl_cons]
    rw [if_neg (not_lt.mpr (hb a (List.mem_cons_self a t)))]
    exact ih (fun j hj => hb j (List.mem_cons_of_mem a hj))

theorem npArgmin_eq_first_zero (f : ℕ → ℚ) (n x : ℕ) (hx : x < n) (h0 : f x = 0)
    (hnn : ∀ j, 0 ≤ f j) (hpos : ∀ j, j < x → 0 < f j) : npArgmin f n = x := by
  unfold npArgmin
  have hsplit : List.range n = List.range (x + 1) ++ List.range' (x + 1) (n - (x + 1)) := by
    rw [List.range_eq_range', List.range_eq_range']
    have happ := List.range'_append 0 (x + 1) (n - (x + 1)) 1
    simp only [one_mul, zero_add] at happ
    rw [happ]
    congr 1
    omega
  rw [hsplit, List.foldl_append]
  have hinner : (List.range (x + 1)).foldl (fun best j => if f j < f best then j else best) 0 = x := by
    rw [List.range_succ, List.foldl_append]
    set b := (List.range x).foldl (fun best j => if f j < f best then j else best) 0 with hbdef
    have hbmem : b ∈ 0 :: List.range x := argmin_foldl_mem f (List.range x) 0
    simp only [List.foldl_cons, List.foldl_nil]
    by_cases hbx : b < x
    · rw [if_pos (by rw [h0]; exact hpos b hbx)]
    · have hb0 : b = 0 := by
        rcases List.mem_cons.mp hbmem with h | h
        · exact h
        · exact absurd (List.mem_range.mp h) hbx
      have hx0 : x = 0 := by
        by_contra hne
        exact hbx (hb0 ▸ Nat.pos_of_ne_zero hne)
      rw [hb0, hx0]
      simp
  rw [hinner]
  exact argmin_foldl_const f _ x (fun j _ => by rw [h0]; exact hnn j)

theorem cdfN_lt_of_mem (xs : List ℕ) {i v : ℕ} (hiv : i < v) (hv : v ∈ xs) :
    cdfN xs i < cdfN xs v := by
  have hcount : 0 < histN xs v := by
    unfold histN
    exact List.countP_pos_iff.mpr ⟨v, hv, by simp⟩
  have hmemv : v ∈ Finset.Ico (i + 1) (v + 1) := by
    simp only [Finset.mem_Ico]
    omega
  have hle : histN xs v ≤ ∑ k ∈ Finset.Ico (i + 1) (v + 1), histN xs k :=
    Finset.single_le_sum (fun k _ => Nat.zero_le _) hmemv
  have hsplit : cdfN xs i + ∑ k ∈ Finset.Ico (i + 1) (v + 1), histN xs k = cdfN xs v := by
    unfold cdfN
    simp only [Finset.range_eq_Ico]
    exact Finset.sum_Ico_consecutive _ (by omega) (by omega)
  omega

theorem cdfN_total (xs : List ℕ) (hb : ∀ a ∈ xs, a < 256) : cdfN xs 255 = xs.length := by
  induction xs with
  | nil => simp [cdfN, histN]
  | cons a t ih =>
    have ha : a < 256 := hb a (by simp)
    have iht := ih (fun a' ha' => hb a' (by simp [ha']))
    unfold cdfN histN at *
    simp only [List.countP_cons, decide_eq_true_eq]
    rw [Finset.sum_add_distrib, iht, Finset.sum_ite_eq]
    simp [Finset.mem_range.mpr (by omega : a < 255 + 1)]

theorem ncdf_lt_of_mem (xs : List ℕ) (hb : ∀ a ∈ xs, a < 256) {i v : ℕ}
    (hiv : i < v) (hv : v ∈ xs) : ncdf xs i < ncdf xs v := by
  have hT : (0 : ℚ) < (cdfN xs 255 : ℚ) := by
    rw [cdfN_total xs hb]
    exact_mod_cast List.length_pos.mpr (List.ne_nil_of_mem hv)
  unfold ncdf
  exact div_lt_div_of_pos_right (by exact_mod_cast cdfN_lt_of_mem xs hiv hv) hT

theorem lutHist_self (xs : List ℕ) (hb : ∀ a ∈ xs, a < 256) {v : ℕ} (hv : v ∈ xs) :
    lutHist xs xs v = v := by
  unfold lutHist
  apply npArgmin_eq_first_zero _ _ _ (hb v hv)
  · simp
  · intro j
    exact abs_nonneg _
  · intro j hj
    rw [abs_pos]
    exact sub_ne_zero.mpr (ne_of_lt (ncdf_lt_of_mem xs hb hj hv))

theorem map_self_of_eq {α : Type} (l : List α) (f : α → α) (h : ∀ a ∈ l, f a = a) :
    l.map f = l := by
  induction l with
  | nil => rfl
  | cons a t ih =>
    rw [List.map_cons, h a (by simp), ih (fun a' ha' => h a' (by simp [ha']))]

/-- C2: `match_histograms(X, X)` returns a buffer equal to `X`: per channel,
the 256-entry lookup table built by minimizing the absolute CDF difference
maps every intensity level occurring in `X` to itself (the first argmin
index with difference 0 is the level itself), hence the remap is the
identity on `X`. -/
theorem match_histograms_self_id (X : List Pixel)
    (hb : ∀ p ∈ X, p.1 < 256 ∧ p.2.1 < 256 ∧ p.2.2 < 256) :
    (∀ p ∈ X, lutHist (channelB X) (channelB X) p.1 = p.1 ∧
              lutHist (channelG X) (channelG X) p.2.1 = p.2.1 ∧
              lutHist (channelR X) (channelR X) p.2.2 = p.2.2) ∧
    matchHistograms X X = X := by
  have hbB : ∀ a ∈ channelB X, a < 256 := by
    intro a ha
    obtain ⟨q, hq, rfl⟩ := List.mem_map.mp ha
    exact (hb q hq).1
  have hbG : ∀ a ∈ channelG X, a < 256 := by
    intro a ha
    obtain ⟨q, hq, rfl⟩ := List.mem_map.mp ha
    exact (hb q hq).2.1
  have hbR : ∀ a ∈ channelR X, a < 256 := by
    intro a ha
    obtain ⟨q, hq, rfl⟩ := List.mem_map.mp ha
    exact (hb q hq).2.2
  have hlut : ∀ p ∈ X, lutHist (channelB X) (channelB X) p.1 = p.1 ∧
      lutHist (channelG X) (channelG X) p.2.1 = p.2.1 ∧
      lutHist (channelR X) (channelR X) p.2.2 = p.2.2 := by
    intro p hp
    exact ⟨lutHist_self (channelB X) hbB (List.mem_map_of_mem _ hp),
           lutHist_self (channelG X) hbG (List.mem_map_of_mem _ hp),
           lutHist_self (channelR X) hbR (List.mem_map_of_mem _ hp)⟩
  refine ⟨hlut, ?_⟩
  unfold matchHistograms
  apply map_self_of_eq
  intro p hp
  obtain ⟨h1, h2, h3⟩ := hlut p hp
  rw [h1, h2, h3]

/-- Witness for C2 at a concrete 3-pixel buffer. -/
theorem match_histograms_self_id_witness :
    (∀ p ∈ wHistBuf, p.1 < 256 ∧ p.2.1 < 256 ∧ p.2.2 < 256) ∧
    ((∀ p ∈ wHistBuf, lutHist (channelB wHistBuf) (channelB wHistBuf) p.1 = p.1 ∧
        lutHist (channelG wHistBuf) (channelG wHistBuf) p.2.1 = p.2.1 ∧
        lutHist (channelR wHistBuf) (channelR wHistBuf) p.2.2 = p.2.2) ∧
      matchHistograms wHistBuf wHistBuf = wHistBuf) :=
  ⟨by decide, match_histograms_self_id wHistBuf (by decide)⟩

/-! ### C5: statistical colour transfer with zero standard deviation -/

theorem qmean_bounds (l : List ℚ) (h : ∀ v ∈ l, 0 ≤ v ∧ v ≤ 255) :
    0 ≤ qmean l ∧ qmean l ≤ 255 := by
  rcases l with _ | ⟨a, t⟩
  · constructor <;> simp [qmean]
  · have hlen : (0 : ℚ) < ((a :: t).length : ℚ) := by
      have : 0 < (a :: t).length := List.length_pos.mpr (by simp)
      exact_mod_cast this
  
    constructor
    · exact div_nonneg (List.sum_nonneg (fun x hx => (h x hx).1)) (le_of_lt hlen)
    · rw [qmean, div_le_iff₀ hlen]
      have hs := List.sum_le_card_nsmul (a :: t) 255 (fun x hx => (h x hx).2)
      rw [nsmul_eq_mul] at hs
      linarith

/-- C5: in the Lab-space core of `color_transfer`, for every channel whose
source variance (equivalently, standard deviation) is zero, every pixel of
that channel of the result equals the reference channel mean — the
division by `src_std` is never performed, so no NaN/infinity can arise. -/
theorem color_transfer_zero_std_ref_mean (sq : ℚ → ℚ) (src ref : List (ℚ × ℚ × ℚ))
    (hsq : sq 0 = 0)
    (hr : ∀ p ∈ ref, (0 ≤ p.1 ∧ p.1 ≤ 255) ∧ (0 ≤ p.2.1 ∧ p.2.1 ≤ 255) ∧
      (0 ≤ p.2.2 ∧ p.2.2 ≤ 255)) :
    (qvar (lab0 src) = 0 → ∀ q ∈ colorTransferLab sq src ref, q.1 = qmean (lab0 ref)) ∧
    (qvar (lab1 src) = 0 → ∀ q ∈ colorTransferLab sq src ref, q.2.1 = qmean (lab1 ref)) ∧
    (qvar (lab2 src) = 0 → ∀ q ∈ colorTransferLab sq src ref, q.2.2 = qmean (lab2 ref)) := by
  have hm0 : 0 ≤ qmean (lab0 ref) ∧ qmean (lab0 ref) ≤ 255 := by
    refine qmean_bounds _ ?_
    intro v hv
    obtain ⟨p, hp, rfl⟩ := List.mem_map.mp hv
    exact (hr p hp).1
  have hm1 : 0 ≤ qmean (lab1 ref) ∧ qmean (lab1 ref) ≤ 255 := by
    refine qmean_bounds _ ?_
    intro v hv
    obtain ⟨p, hp, rfl⟩ := List.mem_map.mp hv
    exact (hr p hp).2.1
  have hm2 : 0 ≤ qmean (lab2 ref) ∧ qmean (lab2 ref) ≤ 255 := by
    refine qmean_bounds _ ?_
    intro v hv
    obtain ⟨p, hp, rfl⟩ := List.mem_map.mp hv
    exact (hr p hp).2.2
  refine ⟨?_, ?_, ?_⟩
  · intro hv q hq
    obtain ⟨p, hp, rfl⟩ := List.mem_map.mp hq
    show clip255 (transferVal sq (lab0 src) (lab0 ref) p.1) = qmean (lab0 ref)
    rw [transferVal, hv, hsq, if_neg (lt_irrefl 0)]
    exact clip255_of_bounds _ hm0.1 hm0.2
  · intro hv q hq
    obtain ⟨p, hp, rfl⟩ := List.mem_map.mp hq
    show clip255 (transferVal sq (lab1 src) (lab1 ref) p.2.1) = qmean (lab1 ref)
    rw [transferVal, hv, hsq, if_neg (lt_irrefl 0)]
    exact clip255_of_bounds _ hm1.1 hm1.2
  · intro hv q hq
    obtain ⟨p, hp, rfl⟩ := List.mem_map.mp hq
    show clip255 (transferVal sq (lab2 src) (lab2 ref) p.2.2) = qmean (lab2 ref)
    rw [transferVal, hv, hsq, if_neg (lt_irrefl 0)]
    exact clip255_of_bounds _ hm2.1 hm2.2

/-- Witness for C5 with the zero square-root oracle and singleton Lab
buffers (a singleton channel has variance 0 on all three channels). -/
theorem color_transfer_zero_std_ref_mean_witness :
    ((fun _ : ℚ => (0 : ℚ)) 0 = 0) ∧
    (∀ p ∈ wLabRef, (0 ≤ p.1 ∧ p.1 ≤ 255) ∧ (0 ≤ p.2.1 ∧ p.2.1 ≤ 255) ∧
      (0 ≤ p.2.2 ∧ p.2.2 ≤ 255)) ∧
    ((qvar (lab0 wLabSrc) = 0 →
        ∀ q ∈ colorTransferLab (fun _ : ℚ => (0 : ℚ)) wLabSrc wLabRef, q.1 = qmean (lab0 wLabRef)) ∧
     (qvar (lab1 wLabSrc) = 0 →
        ∀ q ∈ colorTransferLab (fun _ : ℚ => (0 : ℚ)) wLabSrc wLabRef, q.2.1 = qmean (lab1 wLabRef)) ∧
     (qvar (lab2 wLabSrc) = 0 →
        ∀ q ∈ colorTransferLab (fun _ : ℚ => (0 : ℚ)) wLabSrc wLabRef, q.2.2 = qmean (lab2 wLabRef))) :=
  ⟨rfl,
   by
    intro p hp
    simp only [wLabRef, List.mem_singleton] at hp
    subst hp
    norm_num,
   color_transfer_zero_std_ref_mean (fun _ : ℚ => (0 : ℚ)) wLabSrc wLabRef rfl
     (by
      intro p hp
      simp only [wLabRef, List.mem_singleton] at hp
      subst hp
      norm_num)⟩

/-! ### C3 and C10: chart-based matching and colour extraction -/

theorem length_filterMap_eq_countP {α β : Type} (f2 : α → Option β) (l : List α) :
    (l.filterMap f2).length = l.countP (fun a => (f2 a).isSome) := by
  induction l with
  | nil => rfl
  | cons a t ih =>
    cases hfa : f2 a with
    | none => simp [List.filterMap_cons, List.countP_cons, hfa, ih]
    | some b => simp [List.filterMap_cons, List.countP_cons, hfa, ih]

theorem samplePatch_isSome_iff (img : Image) (patchSize : ℤ) (c : ℚ × ℚ) :
    (samplePatch img patchSize c).isSome = windowNonempty img patchSize c := by
  unfold samplePatch windowNonempty
  simp only []
  split
  next hcond =>
    rw [decide_eq_false (not_not_intro hcond)]
    rfl
  next hcond =>
    rw [decide_eq_true hcond]
    rfl

/-- C3: `match_with_chart` is total (absence, never an exception) and
returns absence exactly when detection fails on either image or colour
extraction fails on either image; and `extract_colors` returns absence
exactly when fewer than 12 patches have a non-empty clipped sampling
window (empty windows are skipped, an empty patch list trivially has
fewer than 12). -/
theorem match_with_chart_absence_iff (detect : Image → Option ChartRegion)
    (lstsq : List (ℚ × ℚ × ℚ) → List (ℚ × ℚ × ℚ) → Mat3) (src ref : Image) :
    (matchWithChart detect lstsq src ref = none ↔
      detect src = none ∨ detect ref = none ∨
      (∃ cs, detect src = some cs ∧ extractColors src cs 10 = none) ∨
      (∃ cr, detect ref = some cr ∧ extractColors ref cr 10 = none)) ∧
    (∀ img chart, extractColors img chart 10 = none ↔
      chart.patches.countP (windowNonempty img 10) < 12) := by
  constructor
  · unfold matchWithChart
    cases hds : detect src with
    | none => simp [hds]
    | some cs =>
      cases hdr : detect ref with
      | none => simp [hds, hdr]
      | some cr =>
        cases hes : extractColors src cs 10 with
        | none => simp [hds, hdr, hes]
        | some sc =>
          cases her : extractColors ref cr 10 with
          | none => simp [hds, hdr, hes, her]
          | some rc => simp [hds, hdr, hes, her]
  · intro img chart
    unfold extractColors
    by_cases hemp : chart.patches = []
    · simp [hemp, MACBETH_PATCHES]
    · rw [if_neg hemp]
      have hcount : (chart.patches.filterMap (samplePatch img 10)).length =
          chart.patches.countP (windowNonempty img 10) := by
        rw [length_filterMap_eq_countP]
        exact List.countP_congr (fun a _ => by rw [samplePatch_isSome_iff img 10 a])
      rw [show (12 : ℕ) = MACBETH_PATCHES / 2 from rfl, ← hcount]
      by_cases hlt : (chart.patches.filterMap (samplePatch img 10)).length < MACBETH_PATCHES / 2
      · simp [hlt]
      · simp [hlt]

theorem meanColor_bounds (l : List Pixel)
    (hb : ∀ p ∈ l, p.1 ≤ 255 ∧ p.2.1 ≤ 255 ∧ p.2.2 ≤ 255) :
    (0 ≤ (meanColor l).1 ∧ (meanColor l).1 ≤ 255) ∧
    (0 ≤ (meanColor l).2.1 ∧ (meanColor l).2.1 ≤ 255) ∧
    (0 ≤ (meanColor l).2.2 ∧ (meanColor l).2.2 ≤ 255) := by
  have h1 := qmean_bounds (l.map (fun p => (p.1 : ℚ))) (by
    intro v hv
    obtain ⟨p, hp, rfl⟩ := List.mem_map.mp hv
    exact ⟨by positivity, by exact_mod_cast (hb p hp).1⟩)
  have h2 := qmean_bounds (l.map (fun p => (p.2.1 : ℚ))) (by
    intro v hv
    obtain ⟨p, hp, rfl⟩ := List.mem_map.mp hv
    exact ⟨by positivity, by exact_mod_cast (hb p hp).2.1⟩)
  have h3 := qmean_bounds (l.map (fun p => (p.2.2 : ℚ))) (by
    intro v hv
    obtain ⟨p, hp, rfl⟩ := List.mem_map.mp hv
    exact ⟨by positivity, by exact_mod_cast (hb p hp).2.2⟩)
  unfold qmean at h1 h2 h3
  rw [List.length_map] at h1 h2 h3
  exact ⟨h1, h2, h3⟩

/-- C10: whenever `extract_colors` returns a result on a 24-patch chart,
it holds between 12 and 24 colour triples, each component lying in
[0, 255] as a mean of 8-bit pixel values. -/
theorem extract_colors_bounds (img : Image) (chart : ChartRegion)
    (colors : List (ℚ × ℚ × ℚ))
    (h24 : chart.patches.length = 24)
    (hbb : ∀ i j, (img.pix i j).1 ≤ 255 ∧ (img.pix i j).2.1 ≤ 255 ∧ (img.pix i j).2.2 ≤ 255)
    (he : extractColors img chart 10 = some colors) :
    12 ≤ colors.length ∧ colors.length ≤ 24 ∧
    ∀ c ∈ colors, (0 ≤ c.1 ∧ c.1 ≤ 255) ∧ (0 ≤ c.2.1 ∧ c.2.1 ≤ 255) ∧
      (0 ≤ c.2.2 ∧ c.2.2 ≤ 255) := by
  unfold extractColors at he
  by_cases hemp : chart.patches = []
  · rw [if_pos hemp] at he
    exact absurd he (by simp)
  · rw [if_neg hemp] at he
    by_cases hlt : (chart.patches.filterMap (samplePatch img 10)).length < MACBETH_PATCHES / 2
    · rw [if_pos hlt] at he
      exact absurd he (by simp)
    · rw [if_neg hlt] at he
      have hcolors : colors = chart.patches.filterMap (samplePatch img 10) :=
        (Option.some_inj.mp he).symm
      refine ⟨?_, ?_, ?_⟩
      · rw [hcolors]
        simp only [MACBETH_PATCHES] at hlt
        omega
      · rw [hcolors]
        exact h24 ▸ List.length_filterMap_le _ _
      · intro c hc
        rw [hcolors] at hc
        obtain ⟨center, hcen, hsp⟩ := List.mem_filterMap.mp hc
        unfold samplePatch at hsp
        by_cases hcond : (min (img.width : ℤ) (truncQ center.1 + 10) ≤ max 0 (truncQ center.1 - 10) ∨
            min (img.height : ℤ) (truncQ center.2 + 10) ≤ max 0 (truncQ center.2 - 10))
        · rw [if_pos hcond] at hsp
          exact absurd hsp (by simp)
        · rw [if_neg hcond] at hsp
          have hceq : c = meanColor (windowPixels img (max 0 (truncQ center.1 - 10))
              (max 0 (truncQ center.2 - 10)) (min (img.width : ℤ) (truncQ center.1 + 10))
              (min (img.height : ℤ) (truncQ center.2 + 10))) := (Option.some_inj.mp hsp).symm
          rw [hceq]
          refine meanColor_bounds _ ?_
          intro p hp
          unfold windowPixels at hp
          simp only [List.mem_flatMap, List.mem_map] at hp
          obtain ⟨r, _, c2, _, rfl⟩ := hp
          exact hbb _ _

theorem filterMap_replicate_some {α β : Type} (f2 : α → Option β) (a : α) (b : β) (n : ℕ)
    (h : f2 a = some b) : (List.replicate n a).filterMap f2 = List.replicate n b := by
  induction n with
  | zero => rfl
  | succ k ih =>
    rw [List.replicate_succ, List.replicate_succ]
    simp [List.filterMap_cons, h, ih]

theorem truncQ_zero : truncQ (0 : ℚ) = 0 := by
  unfold truncQ
  norm_num

theorem samplePatch_oneImg : samplePatch oneImg 10 ((0 : ℚ), (0 : ℚ)) = some ((7 : ℚ), (8 : ℚ), (9 : ℚ)) := by
  unfold samplePatch
  simp only [truncQ_zero]
  rw [if_neg (by decide)]
  have hw : windowPixels oneImg (max 0 ((0 : ℤ) - 10)) (max 0 ((0 : ℤ) - 10))
      (min ((oneImg.width : ℕ) : ℤ) ((0 : ℤ) + 10))
      (min ((oneImg.height : ℕ) : ℤ) ((0 : ℤ) + 10)) = [(7, 8, 9)] := by decide
  rw [hw]
  unfold meanColor
  norm_num

theorem extractColors_oneImg :
    extractColors oneImg chart24 10 = some (List.replicate 24 ((7 : ℚ), (8 : ℚ), (9 : ℚ))) := by
  unfold extractColors chart24
  rw [if_neg (by simp)]
  rw [filterMap_replicate_some (samplePatch oneImg 10) _ _ 24 samplePatch_oneImg]
  rw [if_neg (by simp [MACBETH_PATCHES])]

theorem oneImg_bounds : ∀ i j, (oneImg.pix i j).1 ≤ 255 ∧ (oneImg.pix i j).2.1 ≤ 255 ∧
    (oneImg.pix i j).2.2 ≤ 255 := by
  intro i j
  show (7 : ℕ) ≤ 255 ∧ (8 : ℕ) ≤ 255 ∧ (9 : ℕ) ≤ 255
  decide

theorem chart24_len : chart24.patches.length = 24 := by
  simp [chart24]

/-- Witness for C10 on a 1×1 buffer and a 24-patch chart whose every patch
samples that single pixel. -/
theorem extract_colors_bounds_witness :
    chart24.patches.length = 24 ∧
    (∀ i j, (oneImg.pix i j).1 ≤ 255 ∧ (oneImg.pix i j).2.1 ≤ 255 ∧
      (oneImg.pix i j).2.2 ≤ 255) ∧
    extractColors oneImg chart24 10 = some (List.replicate 24 ((7 : ℚ), (8 : ℚ), (9 : ℚ))) ∧
    (12 ≤ (List.replicate 24 ((7 : ℚ), (8 : ℚ), (9 : ℚ))).length ∧
      (List.replicate 24 ((7 : ℚ), (8 : ℚ), (9 : ℚ))).length ≤ 24 ∧
      ∀ c ∈ List.replicate 24 ((7 : ℚ), (8 : ℚ), (9 : ℚ)),
        (0 ≤ c.1 ∧ c.1 ≤ 255) ∧ (0 ≤ c.2.1 ∧ c.2.1 ≤ 255) ∧ (0 ≤ c.2.2 ∧ c.2.2 ≤ 255)) :=
  by
  refine ⟨chart24_len, oneImg_bounds, extractColors_oneImg, ?_⟩
  exact extract_colors_bounds oneImg chart24 _ chart24_len oneImg_bounds extractColors_oneImg

/-! ### C4: chart detection acceptance -/

theorem histVarOf_zero (cnt : ℕ → ℕ) (bins : ℕ) (h : ∀ k, cnt k = 0) :
    histVarOf cnt bins = 0 := by
  unfold histVarOf
  have h1 : (∑ j ∈ Finset.range bins, (cnt j : ℚ)) = 0 := by
    apply Finset.sum_eq_zero
    intro k _
    rw [h k]
    norm_num
  rw [h1]
  have h2 : (∑ k ∈ Finset.range bins, ((cnt k : ℚ) - 0 / (bins : ℚ)) ^ 2) = 0 := by
    apply Finset.sum_eq_zero
    intro k _
    rw [h k]
    norm_num
  rw [h2, zero_div]

theorem hueVar_nil : hueVar [] = 0 :=
  histVarOf_zero _ _ (fun _ => rfl)

theorem satVar_nil : satVar [] = 0 :=
  histVarOf_zero _ _ (fun _ => rfl)

theorem validateChart_eq_true_iff (img : Image) (a : Polygon) :
    validateChart img a = true ↔
      (((1.2 : ℚ) < aspectOf a ∧ aspectOf a < 2.0 ∨
        (0.5 : ℚ) < aspectOf a ∧ aspectOf a < 0.85) ∧
       10000 ≤ hueVar (roiOf img a) ∧ 10000 ≤ satVar (roiOf img a)) := by
  unfold validateChart roiOf
  simp only []
  split
  next hasp =>
    constructor
    · intro hfalse
      exact absurd hfalse (by simp)
    · intro hcontr
      exact absurd hcontr.1 hasp
  next hasp =>
    rw [not_not] at hasp
    split
    next hroi =>
      have hnil := List.length_eq_zero.mp hroi
      constructor
      · intro hfalse
        exact absurd hfalse (by simp)
      · intro hcontr
        have hv := hcontr.2.1
        rw [hnil, hueVar_nil] at hv
        norm_num at hv
    next hroi =>
      split
      next hvar =>
        constructor
        · intro hfalse
          exact absurd hfalse (by simp)
        · intro hcontr
          rcases hvar with hv | hv
          · linarith [hcontr.2.1]
          · linarith [hcontr.2.2]
      next hvar =>
        push_neg at hvar
        constructor
        · intro _
          exact ⟨hasp, hvar.1, hvar.2⟩
        · intro _
          rfl

theorem detectLoop_eq_find (img : Image) (approx : Polygon → Polygon) (l : List Polygon) :
    detectLoop img approx l =
      (l.find? (fun ct => decide (specAccept img (approx ct)))).map
        (fun ct => mkChartRegion (approx ct)) := by
  induction l with
  | nil => rfl
  | cons ct rest ih =>
    simp only [detectLoop]
    by_cases hacc : specAccept img (approx ct)
    · obtain ⟨h4, harea, hasp, hh, hs⟩ := hacc
      rw [if_pos ⟨h4, harea⟩,
          if_pos ((validateChart_eq_true_iff img (approx ct)).mpr ⟨hasp, hh, hs⟩),
          @List.find?_cons_of_pos _ (fun c => decide (specAccept img (approx c))) ct rest
            (decide_eq_true ⟨h4, harea, hasp, hh, hs⟩)]
      rfl
    · rw [@List.find?_cons_of_neg _ (fun c => decide (specAccept img (approx c))) ct rest
            (by simp [hacc]), ← ih]
      by_cases h4 : (approx ct).length = 4 ∧ 10000 < contourArea (approx ct)
      · rw [if_pos h4]
        have hval : ¬ (validateChart img (approx ct) = true) := by
          intro hv
          obtain ⟨hasp, hh, hs⟩ := (validateChart_eq_true_iff img (approx ct)).mp hv
          exact hacc ⟨h4.1, h4.2, hasp, hh, hs⟩
        rw [if_neg hval]
      · rw [if_neg h4]

/-- C4 (amended): `detect_chart` evaluates the contours in decreasing
`cv2.contourArea` order (a stable descending sort) and returns the region
of the first candidate whose approximation has 4 vertices, enclosed area
> 10000 px², bounding-box aspect ratio strictly inside (1.2, 2.0) or
(0.5, 0.85) — the code's bounds are strict, not the closed intervals of
the claim — and hue and saturation histogram standard deviations ≥ 100
(variance ≥ 100²); it returns absence when no candidate passes
(`find?` on the empty result). -/
theorem detect_chart_first_accepted (img : Image) (contours : List Polygon)
    (approx : Polygon → Polygon) :
    detectChart img contours approx =
      ((contours.mergeSort (fun c1 c2 => decide (contourArea c2 ≤ contourArea c1))).find?
          (fun ct => decide (specAccept img (approx ct)))).map
        (fun ct => mkChartRegion (approx ct)) :=
  detectLoop_eq_find img approx _

theorem hsvH_gray : hsvH ((128 : ℕ), 128, 128) = 0 := by
  unfold hsvH hsvHdeg hsvV hsvMn
  norm_num [round_eq]

theorem hsvS_gray : hsvS ((128 : ℕ), 128, 128) = 0 := by
  unfold hsvS hsvV hsvMn
  norm_num [round_eq]

theorem histVarOf_spike (cnt : ℕ → ℕ) (bins k0 N : ℕ) (hk : k0 < bins)
    (hc : ∀ k, cnt k = if k0 = k then N else 0) :
    histVarOf cnt bins =
      (((N : ℚ) - (N : ℚ) / (bins : ℚ)) ^ 2 +
        ((bins : ℚ) - 1) * ((N : ℚ) / (bins : ℚ)) ^ 2) / (bins : ℚ) := by
  unfold histVarOf
  have htot : (∑ j ∈ Finset.range bins, (cnt j : ℚ)) = (N : ℚ) := by
    have hterm : ∀ j ∈ Finset.range bins, (cnt j : ℚ) = if k0 = j then (N : ℚ) else 0 := by
      intro j _
      rw [hc j]
      split <;> simp
    rw [Finset.sum_congr rfl hterm, Finset.sum_ite_eq]
    simp [Finset.mem_range.mpr hk]
  rw [htot]
  congr 1
  have hterm2 : ∀ k ∈ Finset.range bins,
      ((cnt k : ℚ) - (N : ℚ) / (bins : ℚ)) ^ 2 =
      ((N : ℚ) / (bins : ℚ)) ^ 2 +
        (if k0 = k then ((N : ℚ) - (N : ℚ) / (bins : ℚ)) ^ 2 - ((N : ℚ) / (bins : ℚ)) ^ 2
         else 0) := by
    intro k _
    rw [hc k]
    split
    · ring
    · push_cast
      ring
  rw [Finset.sum_congr rfl hterm2, Finset.sum_add_distrib, Finset.sum_const,
      Finset.sum_ite_eq]
  simp only [Finset.mem_range.mpr hk, if_pos, Finset.card_range, nsmul_eq_mul]
  ring

theorem flatMap_const_replicate {α : Type} (n m : ℕ) (p : α) :
    ((List.range n).flatMap (fun _ => List.replicate m p)) = List.replicate (n * m) p := by
  induction n with
  | zero => simp
  | succ k ih =>
    rw [List.range_succ, List.flatMap_append, ih]
    have hone : ([k].flatMap (fun _ => List.replicate m p)) = List.replicate m p := by
      simp
    rw [hone, ← List.replicate_add]
    congr 1
    ring

theorem roiList_const (img : Image) (p : Pixel) (hp : ∀ i j, img.pix i j = p) (x y w h : ℕ) :
    roiList img x y w h =
      List.replicate ((min (y + h) img.height - y) * (min (x + w) img.width - x)) p := by
  unfold roiList
  have hmap : ∀ r, (List.range (min (x + w) img.width - x)).map
      (fun c => img.pix (y + r) (x + c)) = List.replicate (min (x + w) img.width - x) p := by
    intro r
    rw [show (fun c => img.pix (y + r) (x + c)) = (Function.const ℕ p) from
          funext (fun c => hp _ _),
        List.map_const, List.length_range]
  simp only [hmap]
  exact flatMap_const_replicate _ _ p

theorem boundingRect_cexQuad : boundingRect cexQuad = (0, 0, 200, 100) := by decide

theorem contourArea_cexQuad : contourArea cexQuad = 19701 := by
  have hs : shoelace cexQuad = 39402 := by decide
  unfold contourArea
  rw [hs]
  norm_num

theorem aspectOf_cexQuad : aspectOf cexQuad = 2 := by
  unfold aspectOf
  rw [boundingRect_cexQuad]
  norm_num

theorem roiOf_cexQuad : roiOf cexImg cexQuad = List.replicate 20000 ((128 : ℕ), 128, 128) := by
  unfold roiOf
  rw [boundingRect_cexQuad]
  dsimp only
  rw [roiList_const cexImg ((128 : ℕ), 128, 128) (fun _ _ => rfl) 0 0 200 100]
  congr 1

theorem hueVar_cex : 10000 ≤ hueVar (roiOf cexImg cexQuad) := by
  rw [roiOf_cexQuad]
  unfold hueVar
  rw [histVarOf_spike _ 180 0 20000 (by norm_num) (fun k => by
    rw [List.countP_replicate]
    simp [hsvH_gray])]
  norm_num

theorem satVar_cex : 10000 ≤ satVar (roiOf cexImg cexQuad) := by
  rw [roiOf_cexQuad]
  unfold satVar
  rw [histVarOf_spike _ 256 0 20000 (by norm_num) (fun k => by
    rw [List.countP_replicate]
    simp [hsvS_gray])]
  norm_num

theorem closedSpec_cex : closedSpecAccept cexImg cexQuad := by
  refine ⟨by decide, ?_, ?_, hueVar_cex, satVar_cex⟩
  · rw [contourArea_cexQuad]
    norm_num
  · left
    rw [aspectOf_cexQuad]
    norm_num

theorem validateChart_cex : validateChart cexImg cexQuad = false := by
  have hc : ¬ ((1.2 : ℚ) < aspectOf cexQuad ∧ aspectOf cexQuad < 2.0 ∨
      (0.5 : ℚ) < aspectOf cexQuad ∧ aspectOf cexQuad < 0.85) := by
    rw [aspectOf_cexQuad]
    norm_num
  unfold validateChart
  simp only []
  rw [if_pos hc]

theorem detectChart_cex_none : detectChart cexImg [cexQuad] id = none := by
  unfold detectChart
  rw [List.mergeSort_singleton]
  simp only [detectLoop, id]
  rw [if_pos ⟨by decide, by rw [contourArea_cexQuad]; norm_num⟩, validateChart_cex]
  simp [detectLoop]

/-- C4 counterexample: on a concrete 100×200 constant image with a single
4-vertex candidate whose bounding box has aspect ratio exactly 2.0 and
whose hue/saturation histogram variances far exceed 100², the claim's
closed-interval acceptance (first `find?` below) selects the candidate,
but `detect_chart` rejects it (the code's aspect bound is strict) and
returns absence. -/
theorem detect_chart_closed_interval_cex :
    detectChart cexImg [cexQuad] id = none ∧
    (([cexQuad].mergeSort (fun c1 c2 => decide (contourArea c2 ≤ contourArea c1))).find?
        (fun ct => decide (closedSpecAccept cexImg (id ct)))).map
      (fun ct => mkChartRegion (id ct)) = some (mkChartRegion cexQuad) := by
  refine ⟨detectChart_cex_none, ?_⟩
  rw [List.mergeSort_singleton,
      @List.find?_cons_of_pos _ (fun ct => decide (closedSpecAccept cexImg (id ct))) cexQuad []
        (decide_eq_true closedSpec_cex)]
  rfl
